import Mathlib

/-!
The transfer engine of prom2influx

A shallow embedding of `transfer/transfer.go` (type `Trans`, functions `Run`,
`runOne`, `valueToInfluxdb`, `metricToTag`) and theorems about it.

Modelling conventions
* `time.Time` is an instant counted in nanoseconds since the Unix epoch (its
  range, hundreds of billions of years, is not bounded here); `time.Duration`
  is an int64 count of nanoseconds, and a product of durations wraps modulo
  2^64.
* A Go map is a reference: `Ref` is an address in a `Heap` of tag maps, so two
  fields holding the same map hold the same `Ref`.  A nil map is `none`, and
  so is a nil pointer: a use of either that panics in Go is a
  `Panic.runtime`.  A `Ref` that a value holds is the address of an allocated
  map (Go has no dangling map); the theorems state it as a hypothesis.
* A sample value (float64) is only ever copied by the code; it is carried as
  its IEEE-754 bit pattern.
* The query source and the sink are an environment `Env` with its own state;
  every call made to them is recorded in a trace of `Event`s.
* `panic` is the outcome `Outcome.panicked`; the loop of `runOne` takes fuel,
  and `Outcome.running` is the outcome of a loop that used it up.
* `Run` is modelled in the order in which a started job ends before the next
  one is started, the only order there is when `C` is 1; jobs that overlap
  (a larger `C`) are not shown.
-/

namespace Prom2Influx

/-! ## Time -/

/-- Instant of `time.Time`, in nanoseconds since the Unix epoch. -/
abbrev Time := Int

/-- Type `time.Duration`: a signed 64-bit count of nanoseconds. -/
abbrev Duration := Int

/-- Two's-complement reduction of an integer to the int64 range. -/
def wrapInt64 (x : Int) : Int := (x + 2 ^ 63) % 2 ^ 64 - 2 ^ 63

/-- Product of two durations as Go computes it on int64. -/
def Duration.mul (d k : Duration) : Duration := wrapInt64 (d * k)

/-- Constant `time.Hour`. -/
def Hour : Duration := 3600 * 1000000000

/-- Constant `time.Minute`. -/
def Minute : Duration := 60 * 1000000000

/-- Method `Time.Add`. -/
def Time.Add (t : Time) (d : Duration) : Time := t + d

/-- Method `Time.Before`. -/
def Time.Before (t u : Time) : Bool := decide (t < u)

/-- The zero `time.Time` (January 1, year 1, 00:00 UTC). -/
def zeroTime : Time := -62135596800 * 1000000000

/-- Method `model.Time.Time`: a millisecond timestamp as an instant,
`time.Unix(t/1000, (t%1000)*1e6)` with Go's truncating division. -/
def ModelTime.Time (t : Int) : Time :=
  Int.tdiv t 1000 * 1000000000 + Int.tmod t 1000 * 1000000

/-! ## Tag maps and the heap -/

/-- Contents of a `map[string]string`: an association list. -/
abbrev TagMap := List (String × String)

/-- Lookup `m[k]`. -/
def TagMap.get? (m : TagMap) (k : String) : Option String :=
  match m with
  | [] => none
  | (k', v') :: rest => if k' = k then some v' else TagMap.get? rest k

/-- Assignment `m[k] = v`: replaces the entry of `k`, or adds one. -/
def TagMap.set (m : TagMap) (k v : String) : TagMap :=
  match m with
  | [] => [(k, v)]
  | (k', v') :: rest => if k' = k then (k, v) :: rest else (k', v') :: TagMap.set rest k v

/-- Address of a map. -/
abbrev Ref := Nat

/-- The maps allocated so far, by address. -/
abbrev Heap := List TagMap

/-- Contents of the map at `r`. -/
def Heap.read (h : Heap) (r : Ref) : TagMap := h.getD r []

/-- A map literal or `make`: a new map with the given contents. -/
def Heap.alloc (h : Heap) (m : TagMap) : Ref × Heap := (h.length, h ++ [m])

/-- Statement `tags[k] = v` on the map at `r`, the address of an allocated map. -/
def Heap.assign (h : Heap) (r : Ref) (k v : String) : Heap :=
  h.set r (TagMap.set (Heap.read h r) k v)

/-! ## Errors and panics -/

/-- An error value returned by a client or a library function. -/
abbrev Err := String

/-- Argument of a `panic`: an error value, a string, or a run-time error of
the Go runtime. -/
inductive Panic where
  | err (e : Err)
  | msg (s : String)
  | runtime (s : String)
  deriving DecidableEq

/-- The run-time panic of a field access through a nil pointer. -/
def nilDereference : Panic :=
  Panic.runtime "invalid memory address or nil pointer dereference"

/-- The run-time panic of `m[k] = v` on a nil map `m`. -/
def nilMapAssignment : Panic :=
  Panic.runtime "assignment to entry in nil map"

/-- Loop `for k, v := range src { dst[k] = v }` where `src` are the entries
ranged over and `dst` may be nil.  Go leaves the order of `range` open; the
entries of a map have distinct keys, so the order of these assignments does
not matter. -/
def Heap.assignRange (h : Heap) (dst : Option Ref) : TagMap → Except Panic Heap
  | [] => .ok h
  | (k, v) :: src =>
    match dst with
    | none => .error nilMapAssignment
    | some r => Heap.assignRange (Heap.assign h r k v) dst src

/-! ## Query results (package `model`) -/

/-- Type `model.SampleValue` (a float64), as its bit pattern. -/
abbrev SampleValue := Nat

/-- Type `model.SamplePair`. -/
structure SamplePair where
  Timestamp : Int
  Value : SampleValue
  deriving DecidableEq

/-- Type `model.SampleStream`: `Metric` is a map, hence a reference or nil. -/
structure SampleStream where
  Metric : Option Ref
  Values : List SamplePair
  deriving DecidableEq

/-- Type `model.Sample`. -/
structure Sample where
  Metric : Option Ref
  Value : SampleValue
  Timestamp : Int
  deriving DecidableEq

/-- Type `model.Scalar`. -/
structure Scalar where
  Value : SampleValue
  Timestamp : Int
  deriving DecidableEq

/-- Type `model.String`. -/
structure ModelString where
  Value : String
  Timestamp : Int
  deriving DecidableEq

/-- Interface `model.Value` by dynamic type: the four types the type switch of
`valueToInfluxdb` names, and `Other` for every other dynamic type (the nil
interface included).  `model.Matrix` is `[]*SampleStream` and `model.Vector` is
`[]*Sample`, slices of pointers; the switch matches `*model.Scalar` and
`*model.String`, pointers: each pointer may be nil. -/
inductive Value where
  | Matrix (v : List (Option SampleStream))
  | Vector (v : List (Option Sample))
  | Scalar (v : Option Scalar)
  | String (v : Option ModelString)
  | Other
  deriving DecidableEq

/-! ## Write format (package `client`) -/

/-- A value of a `map[string]interface{}` field map, by dynamic type. -/
inductive FieldValue where
  | float64 (v : SampleValue)
  | sampleValue (v : SampleValue)
  | string (s : String)
  deriving DecidableEq

/-- Type `client.Point`; fields the code leaves out hold their zero value. -/
structure Point where
  Measurement : String := ""
  Tags : Option Ref := none
  Time : Time := zeroTime
  Fields : List (String × FieldValue) := []
  Precision : String := ""
  Raw : String := ""
  deriving DecidableEq

/-- Type `client.BatchPoints`. -/
structure BatchPoints where
  Points : List Point := []
  Database : String := ""
  Tags : Option Ref := none
  Time : Time := zeroTime
  Precision : String := ""
  deriving DecidableEq

/-! ## The engine -/

/-- Type `Trans`, without the two clients (they are the `Env`). -/
structure Trans where
  Database : String
  Start : Time
  End : Time
  Step : Duration
  C : Int
  Retry : Int
  MonitorLabel : String
  Precision : String
  Metrics : String
  deriving DecidableEq

/-- Function `metricToTag`: the pointer cast returns the very same map. -/
def metricToTag (metric : Option Ref) : Option Ref := metric

/-- Loop of lines 182-208 of `valueToInfluxdb` over the elements of a matrix
still to come, `bps` being the batches built so far.  A nil element panics at
`i.Metric`. -/
def matrixLoop (t : Trans) (name : String) (externalLabels : Ref) :
    List (Option SampleStream) → List BatchPoints → Except Panic (List BatchPoints)
  | [], bps => .ok bps
  | none :: _, _ => .error nilDereference
  | some i :: v, bps =>
    let bp : BatchPoints :=
      { Database := t.Database, Tags := metricToTag i.Metric, Precision := t.Precision }
    let bp := i.Values.foldl (fun (bp : BatchPoints) j =>
      let tt := ModelTime.Time j.Timestamp
      { bp with Points := bp.Points ++ [
        { Tags := some externalLabels
          Measurement := name
          Time := tt
          Fields := [("value", FieldValue.float64 j.Value)]
          Precision := t.Precision }] }) bp
    matrixLoop t name externalLabels v (bps ++ [bp])

/-- Loop of lines 227-238 of `valueToInfluxdb` over the elements of a vector
still to come, `bp` being the batch built so far.  A nil element panics at
`i.Metric`, and a nil label map at `tags[k] = v`. -/
def vectorLoop (name : String) (externalLabels : Ref) :
    List (Option Sample) → Heap → BatchPoints → Except Panic (Heap × BatchPoints)
  | [], h, bp => .ok (h, bp)
  | none :: _, _, _ => .error nilDereference
  | some i :: v, h, bp =>
    let tags := metricToTag i.Metric
    match Heap.assignRange h tags (Heap.read h externalLabels) with
    | .error p => .error p
    | .ok h =>
      vectorLoop name externalLabels v h
        { bp with Points := bp.Points ++ [
          { Measurement := name
            Tags := tags
            Time := ModelTime.Time i.Timestamp
            Fields := [("value", FieldValue.sampleValue i.Value)] }] }

/-- Method `Trans.valueToInfluxdb`.  The result is the batches and the heap
after the call; `Except.error` is a panic: the one of the default case, or a
run-time panic on a nil pointer or a nil map. -/
def valueToInfluxdb (t : Trans) (name : String) (h : Heap) (v : Value) :
    Except Panic (Heap × List BatchPoints) :=
  let (externalLabels, h) := Heap.alloc h [("monitor", t.MonitorLabel)]
  match v with
  | .Matrix v =>
    match matrixLoop t name externalLabels v [] with
    | .error p => .error p
    | .ok bps => .ok (h, bps)
  | .Scalar none => .error nilDereference
  | .Scalar (some v) =>
    .ok (h, [
      { Points := [
          { Measurement := name
            Tags := some externalLabels
            Fields := [("value", FieldValue.float64 v.Value)]
            Precision := t.Precision }]
        Database := t.Database
        Time := Time.Add (ModelTime.Time v.Timestamp) (-(Duration.mul (Duration.mul Hour 24) 15)) }])
  | .Vector v =>
    let bp : BatchPoints := { Database := t.Database, Precision := t.Precision }
    match vectorLoop name externalLabels v h bp with
    | .error p => .error p
    | .ok (h, bp) => .ok (h, [bp])
  | .String none => .error nilDereference
  | .String (some v) =>
    .ok (h, [
      { Points := [
          { Measurement := name
            Tags := some externalLabels
            Fields := [("value", FieldValue.string v.Value)]
            Precision := t.Precision }]
        Database := t.Database
        Time := ModelTime.Time v.Timestamp }])
  | .Other => .error (Panic.msg "unknown type")

/-! ## Source and sink -/

/-- Type `v1.Range`. -/
structure Range where
  Start : Time
  End : Time
  Step : Duration
  deriving DecidableEq

/-- The two clients of a `Trans`, as transitions on a state `σ` of the outside
world.  `QueryRange` is `t.p.QueryRange` (warnings are dropped by the code); a
successful query gives the decoded value and the heap holding its label maps.
`Write` is `t.i.Write`; it is handed the heap, so it sees the tags of each point. -/
structure Env (σ : Type) where
  QueryRange : σ → String → Range → σ × Except Err (Heap × Value)
  Write : σ → Heap → BatchPoints → σ × Option Err

/-- Contents of the tag map of every point of a batch. -/
def pointTags (h : Heap) (i : BatchPoints) : List TagMap :=
  i.Points.map (fun p => match p.Tags with
    | some r => Heap.read h r
    | none => [])

/-- One call to a client: a range query, or a `Write` of batch `bp` whose
points carried the tag maps `tags` at the time of the call and that returned
`err`. -/
inductive Event where
  | query (name : String) (r : Range)
  | write (bp : BatchPoints) (tags : List TagMap) (err : Option Err)
  deriving DecidableEq

/-- How a call of `runOne` ends: it returns an error value (`none` is nil), it
panics, or the loop is still running when the fuel is used up. -/
inductive Outcome where
  | returned (err : Option Err)
  | panicked (p : Panic)
  | running
  deriving DecidableEq

/-- Inner loop of lines 147-152 for one point `p` of a batch with tags `tags`
(`p` is a copy: a map made for a nil `p.Tags` is reachable from the copy only). -/
def mergePoint (h : Heap) (tags : Option Ref) (p : Point) : Heap :=
  if p.Raw ≠ "" then h
  else
    match tags with
    | none => h
    | some r =>
      ((Heap.read h r).foldl (fun (acc : Heap × Option Ref) kv =>
        let (h, pTags) := acc
        let (h, pTags) : Heap × Ref := match pTags with
          | none => let (m, h) := Heap.alloc h []; (h, m)
          | some m => (h, m)
        (Heap.assign h pTags kv.1 kv.2, some pTags)) (h, p.Tags)).1

/-- Block of lines 141-159: the tags of batch `i` are assigned into the tag
map of each of its points (the buffer written there is dropped). -/
def mergeTags (h : Heap) (i : BatchPoints) : Heap :=
  i.Points.foldl (fun h p => mergePoint h i.Tags p) h

/-- Retry loop of lines 161-166, `n` being the number of values of `try` still
to run and `err` the current value of the variable `err`. -/
def writeTry {σ : Type} (env : Env σ) (h : Heap) (i : BatchPoints) :
    Nat → σ → Option Err → σ × List Event × Option Err
  | 0, s, err => (s, [], err)
  | n + 1, s, _ =>
    match env.Write s h i with
    | (s, none) => (s, [Event.write i (pointTags h i) none], none)
    | (s, some e) =>
      let (s, ev, err) := writeTry env h i n s (some e)
      (s, Event.write i (pointTags h i) (some e) :: ev, err)

/-- Lines 160-170: `try` takes the values `0 .. t.Retry`, that is
`(t.Retry + 1).toNat` values (none when `t.Retry < 0`), and a remaining error
panics.  The counter is not wrapped: reaching the bound of `int` would take
2^63 failed calls. -/
def writeBatch {σ : Type} (env : Env σ) (t : Trans) (h : Heap) (i : BatchPoints) (s : σ) :
    σ × List Event × Except Panic Unit :=
  let (s, ev, err) := writeTry env h i (t.Retry + 1).toNat s none
  match err with
  | some e => (s, ev, .error (Panic.err e))
  | none => (s, ev, .ok ())

/-- Loop `for _, i := range bps` of lines 140-171. -/
def writeAll {σ : Type} (env : Env σ) (t : Trans) :
    Heap → List BatchPoints → σ → σ × List Event × Except Panic Unit
  | _, [], s => (s, [], .ok ())
  | h, i :: bps, s =>
    let h := mergeTags h i
    match writeBatch env t h i s with
    | (s, ev, .error p) => (s, ev, .error p)
    | (s, ev, .ok ()) =>
      let (s, ev2, r) := writeAll env t h bps s
      (s, ev ++ ev2, r)

/-- Body of the loop of `runOne` for the window from `start` to `end_`
(lines 126-171). -/
def runWindow {σ : Type} (env : Env σ) (t : Trans) (name : String) (start end_ : Time) (s : σ) :
    σ × List Event × Except Panic Unit :=
  let r : Range := { Start := start, End := end_, Step := t.Step }
  match env.QueryRange s name r with
  | (s, .error e) => (s, [Event.query name r], .error (Panic.err e))
  | (s, .ok (h, v)) =>
    match valueToInfluxdb t name h v with
    | .error p => (s, [Event.query name r], .error p)
    | .ok (h, bps) =>
      let (s, ev, res) := writeAll env t h bps s
      (s, Event.query name r :: ev, res)

/-- Loop `for start.Before(finish)` of `runOne`, at most `fuel` iterations. -/
def runOneLoop {σ : Type} (env : Env σ) (t : Trans) (name : String) (finish : Time) :
    Nat → Time → σ → σ × List Event × Outcome
  | 0, _, s => (s, [], Outcome.running)
  | fuel + 1, start, s =>
    if Time.Before start finish then
      let end_ := Time.Add start (Duration.mul (Duration.mul t.Step 60) 1)
      match runWindow env t name start end_ s with
      | (s, ev, .error p) => (s, ev, Outcome.panicked p)
      | (s, ev, .ok ()) =>
        let (s, ev2, o) := runOneLoop env t name finish fuel end_ s
        (s, ev ++ ev2, o)
    else (s, [], Outcome.returned none)

/-- Method `Trans.runOne`: final state of the outside world, the calls made
to the clients in order, and the outcome. -/
def runOne {σ : Type} (env : Env σ) (t : Trans) (name : String) (fuel : Nat) (s : σ) :
    σ × List Event × Outcome :=
  let start := t.Start
  let finish := t.End
  runOneLoop env t name finish fuel start s

/-- Library function `strings.Split(s, sep)` for a one-character `sep`, on the
characters of `s`. -/
def splitChars (sep : Char) : List Char → List (List Char)
  | [] => [[]]
  | c :: cs =>
    if c = sep then [] :: splitChars sep cs
    else
      match splitChars sep cs with
      | [] => [[c]]
      | f :: fs => (c :: f) :: fs

/-- Library function `strings.Split(s, ",")`. -/
def stringsSplitComma (s : String) : List String :=
  (splitChars ',' s.data).map String.mk

/-- Lines 51-63 of `Trans.Run`: the metric names. -/
def Run.names (t : Trans) : List String :=
  if t.Metrics = "" then [t.Metrics]
  else (stringsSplitComma t.Metrics).foldl (fun names l => names ++ [l]) []

/-- What `Run` uses besides the two clients: the clock, the `Flags` call of
the query client, and three library functions (`strconv.Atoi`, `strconv.Itoa`,
`time.ParseDuration`), taken as given. -/
structure RunEnv (σ : Type) extends Env σ where
  Now : σ → σ × Time
  Flags : σ → σ × Except Err TagMap
  Atoi : String → Except Err Int
  Itoa : Int → String
  ParseDuration : String → Except Err Duration

/-- How a call of `Run` ends: it returns an error value (`none` is nil), it
panics (in `Run` itself or in a job), a job ends the process through
`log.Fatal`, or a job is still running when the fuel is used up. -/
inductive RunOutcome where
  | returned (err : Option Err)
  | panicked (p : Panic)
  | fatal (e : Err)
  | running
  deriving DecidableEq

/-- Lines 71-92 of `Trans.Run`: the start time when `t.Start` is zero. -/
def Run.start {σ : Type} (env : RunEnv σ) (s : σ) : σ × Except RunOutcome Time :=
  match env.Flags s with
  | (s, .error err) => (s, .error (RunOutcome.returned (some err)))
  | (s, .ok flags) =>
    match TagMap.get? flags "storage.tsdb.retention" with
    | none => (s, .error (RunOutcome.panicked (Panic.msg "storage.tsdb.retention not found")))
    | some v =>
      match v.data.getLast? with
      | none => (s, .error (RunOutcome.panicked (Panic.runtime "index out of range [-1]")))
      | some last =>
        let v1 : Except Err String :=
          if last = 'd' then
            match env.Atoi (String.mk v.data.dropLast) with
            | .error err => .error err
            | .ok a => .ok (env.Itoa (wrapInt64 (a * 24)) ++ "h")
          else .ok v
        match v1 with
        | .error err => (s, .error (RunOutcome.returned (some err)))
        | .ok v =>
          match env.ParseDuration v with
          | .error err => (s, .error (RunOutcome.returned (some err)))
          | .ok d =>
            let (s, now) := env.Now s
            (s, .ok (Time.Add now (wrapInt64 (-d))))

/-- Lines 65-101 of `Trans.Run`: the defaults written into `t`, up to and
including `make(chan struct{}, t.C)`, which panics on a negative size.  The
result is the `Trans` the jobs run with, or the way `Run` ends before its job
loop. -/
def Run.setup {σ : Type} (env : RunEnv σ) (t : Trans) (s : σ) : σ × Except RunOutcome Trans :=
  let (s, t) : σ × Trans :=
    if t.End = zeroTime then
      let (s, now) := env.Now s
      (s, { t with End := now })
    else (s, t)
  let t : Trans := if t.Step = 0 then { t with Step := Minute } else t
  let (s, r) : σ × Except RunOutcome Trans :=
    if t.Start = zeroTime then
      match Run.start env s with
      | (s, .error o) => (s, .error o)
      | (s, .ok start) => (s, .ok { t with Start := start })
    else (s, .ok t)
  match r with
  | .error o => (s, .error o)
  | .ok t =>
    let t : Trans := if t.C = 0 then { t with C := 1 } else t
    if t.C < 0 then (s, .error (RunOutcome.panicked (Panic.runtime "makechan: size out of range")))
    else (s, .ok t)

/-- Loop of lines 104-116 of `Trans.Run` over the names still to come, and
`wg.Wait()`: a job is started for the name at hand (its `go` statement) and
runs to its end; a job that panics or returns an error ends the process, and
the loop goes on to the next name once the job is done, which is what the send
`c <- struct{}{}` waits for when `C` is 1.  The result holds the names jobs
were started for, in order, and the calls of these jobs. -/
def Run.loop {σ : Type} (env : Env σ) (t : Trans) (fuel : Nat) :
    List String → σ → σ × List String × List Event × RunOutcome
  | [], s => (s, [], [], RunOutcome.returned none)
  | i :: names, s =>
    match runOne env t i fuel s with
    | (s, ev, Outcome.panicked p) => (s, [i], ev, RunOutcome.panicked p)
    | (s, ev, Outcome.returned (some err)) => (s, [i], ev, RunOutcome.fatal err)
    | (s, ev, Outcome.running) => (s, [i], ev, RunOutcome.running)
    | (s, ev, Outcome.returned none) =>
      let (s, started, ev2, o) := Run.loop env t fuel names s
      (s, i :: started, ev ++ ev2, o)

/-- Method `Trans.Run`: final state of the outside world, the names of the
jobs started (the arguments of the `runOne` calls), the calls these jobs made,
and the outcome. -/
def Run {σ : Type} (env : RunEnv σ) (t : Trans) (fuel : Nat) (s : σ) :
    σ × List String × List Event × RunOutcome :=
  let names := Run.names t
  match Run.setup env t s with
  | (s, .error o) => (s, [], [], o)
  | (s, .ok t) => Run.loop env.toEnv t fuel names s

/-- The queries of a trace, in order. -/
def queriesOf : List Event → List Range
  | [] => []
  | Event.query _ r :: ev => r :: queriesOf ev
  | Event.write _ _ _ :: ev => queriesOf ev

/-! ## Closed forms used in the statements and proofs -/

/-- The point `valueToInfluxdb` builds for sample `j` of a matrix series. -/
def matrixPoint (t : Trans) (name : String) (externalLabels : Ref) (j : SamplePair) : Point :=
  { Tags := some externalLabels
    Measurement := name
    Time := ModelTime.Time j.Timestamp
    Fields := [("value", FieldValue.float64 j.Value)]
    Precision := t.Precision }

/-- The batch `valueToInfluxdb` builds for series `i` of a matrix. -/
def matrixBatch (t : Trans) (name : String) (externalLabels : Ref) (i : SampleStream) : BatchPoints :=
  { Database := t.Database
    Tags := i.Metric
    Precision := t.Precision
    Points := i.Values.map (matrixPoint t name externalLabels) }

/-- The point `valueToInfluxdb` builds for element `i` of a vector. -/
def vectorPoint (name : String) (i : Sample) : Point :=
  { Measurement := name
    Tags := i.Metric
    Time := ModelTime.Time i.Timestamp
    Fields := [("value", FieldValue.sampleValue i.Value)] }

/-- A value of one of the four types of the type switch that holds no nil
pointer and, in a vector, no element with a nil label map. -/
def Value.Valid : Value → Bool
  | .Matrix v => v.all Option.isSome
  | .Vector v => v.all (fun e => match e with
    | some i => i.Metric.isSome
    | none => false)
  | .Scalar v => v.isSome
  | .String v => v.isSome
  | .Other => false

/-- Every label map of the value is an allocated map of the heap `h`. -/
def Value.Allocated (h : Heap) : Value → Bool
  | .Matrix v => v.all (fun e => match e with
    | some i => match i.Metric with
      | some r => decide (r < h.length)
      | none => true
    | none => true)
  | .Vector v => v.all (fun e => match e with
    | some i => match i.Metric with
      | some r => decide (r < h.length)
      | none => true
    | none => true)
  | _ => true

/-- State of the outside world after `k` consecutive calls `Write(i)` from `s`. -/
def sinkAfter {σ : Type} (env : Env σ) (h : Heap) (i : BatchPoints) : Nat → σ → σ
  | 0, s => s
  | k + 1, s => sinkAfter env h i k (env.Write s h i).1

/-- What call number `k` (counted from 0) of consecutive calls `Write(i)` from
`s` returns. -/
def sinkResult {σ : Type} (env : Env σ) (h : Heap) (i : BatchPoints) (k : Nat) (s : σ) :
    Option Err :=
  (env.Write (sinkAfter env h i k s) h i).2

/-- The trace of `n` consecutive calls `Write(i)` from `s`. -/
def writeCalls {σ : Type} (env : Env σ) (h : Heap) (i : BatchPoints) (s : σ) (n : Nat) :
    List Event :=
  (List.range n).map (fun k => Event.write i (pointTags h i) (sinkResult env h i k s))

/-- A sink that fails its first two calls and accepts the third; its state
counts the calls. -/
def flakyEnv : Env Nat :=
  { QueryRange := fun s _ _ => (s, .ok ([], Value.Matrix []))
    Write := fun s _ _ => (s + 1, if s < 2 then some "unavailable" else none) }

/-- A source whose every query returns a value of an unknown dynamic type, and a
sink that accepts every write and counts the calls. -/
def unknownEnv : Env Nat :=
  { QueryRange := fun s _ _ => (s, .ok ([], Value.Other))
    Write := fun s _ _ => (s + 1, none) }

/-- Number of windows of width `w` from `start` that begin before `finish`:
the ceiling of `(finish - start) / w`, and 0 when `finish <= start`. -/
def numWindows (start finish : Time) (w : Duration) : Nat :=
  ((finish - start + w - 1) / w).toNat

/-- Window number `k` (from 0) of width `w` from `start`, queried at step `step`. -/
def window (start : Time) (w step : Duration) (k : Nat) : Range :=
  { Start := start + k * w, End := start + (k + 1) * w, Step := step }

/-- A source that answers every query with a one-series matrix and a sink that
accepts every write; the state counts the calls. -/
def steadyEnv : Env Nat :=
  { QueryRange := fun s _ _ =>
      (s + 1, .ok ([[("job", "a")]],
        Value.Matrix [some { Metric := some 0, Values := [⟨1000, 7⟩] }]))
    Write := fun s _ _ => (s + 1, none) }

/-- A source that answers every query with a matrix of two series whose label
maps have different keys (`a` and `b`), one sample each, and a sink that
accepts every write; the state counts the `Write` calls. -/
def twoSeriesEnv : Env Nat :=
  { QueryRange := fun s _ _ =>
      (s, .ok ([[("a", "1")], [("b", "2")]],
        Value.Matrix [some { Metric := some 0, Values := [⟨0, 7⟩] },
          some { Metric := some 1, Values := [⟨5, 8⟩] }]))
    Write := fun s _ _ => (s + 1, none) }

/-- The same source with a sink that rejects every write. -/
def rejectingEnv : Env Nat :=
  { QueryRange := twoSeriesEnv.QueryRange
    Write := fun s _ _ => (s + 1, some "rejected") }

theorem ModelTime.Time_eq (t : Int) : ModelTime.Time t = t * 1000000 := by
  unfold ModelTime.Time
  have h := Int.tdiv_add_tmod t 1000
  have h2 : Int.tmod t 1000 = t - 1000 * Int.tdiv t 1000 := by omega
  rw [h2]; ring

theorem wrapInt64_of_range (x : Int) (h1 : -(2 ^ 63) ≤ x) (h2 : x < 2 ^ 63) : wrapInt64 x = x := by
  unfold wrapInt64
  rw [Int.emod_eq_of_lt (by omega) (by omega)]
  omega

theorem TagMap.get?_set (m : TagMap) (k v k' : String) :
    TagMap.get? (TagMap.set m k v) k' = if k' = k then some v else TagMap.get? m k' := by
  induction m with
  | nil =>
    by_cases h : k' = k
    · simp [TagMap.set, TagMap.get?, h]
    · have h' : ¬ k = k' := fun e => h e.symm
      simp [TagMap.set, TagMap.get?, h, h']
  | cons a rest ih =>
    obtain ⟨ka, va⟩ := a
    by_cases h1 : ka = k
    · subst h1
      by_cases h : k' = ka
      · simp [TagMap.set, TagMap.get?, h]
      · have h' : ¬ ka = k' := fun e => h e.symm
        simp [TagMap.set, TagMap.get?, h, h']
    · by_cases h : k' = k
      · subst h
        simp [TagMap.set, TagMap.get?, h1, ih]
      · simp only [TagMap.set, h1, if_false, TagMap.get?, ih, h]

theorem TagMap.set_set (m : TagMap) (k v : String) :
    TagMap.set (TagMap.set m k v) k v = TagMap.set m k v := by
  induction m with
  | nil => simp [TagMap.set]
  | cons a rest ih =>
    obtain ⟨ka, va⟩ := a
    by_cases h1 : ka = k
    · simp [TagMap.set, h1]
    · simp [TagMap.set, h1, ih]

theorem Heap.read_append_left (h l : Heap) (r : Ref) (hr : r < h.length) :
    Heap.read (h ++ l) r = Heap.read h r := by
  simp [Heap.read, List.getD, List.getElem?_append_left hr]

theorem Heap.read_append_length (h : Heap) (m : TagMap) :
    Heap.read (h ++ [m]) h.length = m := by
  simp [Heap.read, List.getD]

theorem Heap.read_set (h : Heap) (r r' : Ref) (m : TagMap) (hr : r < h.length) :
    Heap.read (h.set r m) r' = if r' = r then m else Heap.read h r' := by
  unfold Heap.read
  by_cases e : r' = r
  · subst e
    simp [List.getD, List.getElem?_set_self hr]
  · have e' : r ≠ r' := fun x => e x.symm
    simp [List.getD, List.getElem?_set_ne e', e]

theorem Heap.read_assign (h : Heap) (r r' : Ref) (k v : String) :
    Heap.read (Heap.assign h r k v) r'
      = if r' = r ∧ r < h.length then TagMap.set (Heap.read h r) k v else Heap.read h r' := by
  unfold Heap.assign
  by_cases hr : r < h.length
  · rw [Heap.read_set _ _ _ _ hr]
    by_cases e : r' = r
    · simp [e, hr]
    · simp [e]
  · have : h.set r (TagMap.set (Heap.read h r) k v) = h := by
      apply List.ext_getElem?
      intro n
      by_cases e : r = n
      · subst e
        rw [List.getElem?_set_self']
        have : h[r]? = none := List.getElem?_eq_none (Nat.le_of_not_lt hr)
        simp [this]
      · rw [List.getElem?_set_ne e]
    rw [this]
    simp [hr]

theorem Heap.length_assign (h : Heap) (r : Ref) (k v : String) :
    (Heap.assign h r k v).length = h.length := by
  simp [Heap.assign]

/-! ## The value converter on a matrix -/

theorem foldl_points_eq_map {α : Type} (f : α → Point) (l : List α) (bp : BatchPoints) :
    l.foldl (fun (bp : BatchPoints) x => { bp with Points := bp.Points ++ [f x] }) bp
      = { bp with Points := bp.Points ++ l.map f } := by
  induction l generalizing bp with
  | nil => simp
  | cons a l ih => simp [ih]

theorem matrixLoop_series (t : Trans) (name : String) (ext : Ref) (m : List SampleStream) :
    ∀ bps : List BatchPoints,
      matrixLoop t name ext (m.map some) bps = .ok (bps ++ m.map (matrixBatch t name ext)) := by
  induction m with
  | nil => intro bps; simp [matrixLoop]
  | cons i m ih =>
    intro bps
    simp only [List.map_cons, matrixLoop, metricToTag]
    have hb : List.foldl (fun (bp : BatchPoints) x =>
        { bp with Points := bp.Points ++ [matrixPoint t name ext x] })
        { Database := t.Database, Tags := i.Metric, Precision := t.Precision } i.Values
        = matrixBatch t name ext i := by
      rw [foldl_points_eq_map (matrixPoint t name ext)]
      simp [matrixBatch]
    have key := ih (bps ++ [matrixBatch t name ext i])
    show matrixLoop t name ext (m.map some) (bps ++ [List.foldl (fun (bp : BatchPoints) x =>
        { bp with Points := bp.Points ++ [matrixPoint t name ext x] })
        { Database := t.Database, Tags := i.Metric, Precision := t.Precision } i.Values]) = _
    rw [hb, key]
    simp

theorem matrix_closed_form (t : Trans) (name : String) (h : Heap) (m : List SampleStream) :
    valueToInfluxdb t name h (Value.Matrix (m.map some))
      = .ok (h ++ [[("monitor", t.MonitorLabel)]], m.map (matrixBatch t name h.length)) := by
  simp only [valueToInfluxdb, Heap.alloc]
  rw [matrixLoop_series]
  rfl

/-- Claim C3: on a matrix made of the N series `m`, `valueToInfluxdb` returns
(it does not panic) exactly N batches in series order; batch `n` has the
database and precision of `t`, its tags are the label map of series `n` (the
same map, nil when that is nil, with unchanged contents), it has as many points
as the series has samples, in sample order, and point `k` has the metric name
as measurement, the time of sample `k`, the single field "value" holding the
sample value as a float64, and a tag map whose contents are exactly monitor =
`t.MonitorLabel`. -/
theorem valueToInfluxdb_matrix (t : Trans) (name : String) (h : Heap) (m : List SampleStream)
    (hwf : ∀ i ∈ m, ∀ r, i.Metric = some r → r < h.length) :
    ∃ h' bps, valueToInfluxdb t name h (Value.Matrix (m.map some)) = .ok (h', bps) ∧
      bps.length = m.length ∧
      ∀ (n : Nat) (i : SampleStream), m[n]? = some i →
        ∃ b, bps[n]? = some b ∧
          b.Database = t.Database ∧ b.Precision = t.Precision ∧
          b.Tags = i.Metric ∧
          (∀ r, i.Metric = some r → Heap.read h' r = Heap.read h r) ∧
          b.Points.length = i.Values.length ∧
          ∀ (k : Nat) (j : SamplePair), i.Values[k]? = some j →
            ∃ p r, b.Points[k]? = some p ∧
              p.Measurement = name ∧
              p.Time = ModelTime.Time j.Timestamp ∧
              p.Fields = [("value", FieldValue.float64 j.Value)] ∧
              p.Tags = some r ∧
              Heap.read h' r = [("monitor", t.MonitorLabel)] := by
  refine ⟨_, _, matrix_closed_form t name h m, by simp, ?_⟩
  intro n i hn
  refine ⟨matrixBatch t name h.length i, by simp [hn], rfl, rfl, rfl, ?_, by simp [matrixBatch], ?_⟩
  · intro r hr
    exact Heap.read_append_left _ _ _ (hwf i (List.getElem?_mem hn) r hr)
  · intro k j hk
    refine ⟨matrixPoint t name h.length j, h.length, by simp [matrixBatch, hk], rfl, rfl, rfl, rfl, ?_⟩
    exact Heap.read_append_length _ _

/-- The hypothesis of `valueToInfluxdb_matrix` at a matrix of two series. -/
theorem valueToInfluxdb_matrix_witness :
    (∀ i ∈ [({ Metric := some 0, Values := [⟨1000, 7⟩, ⟨2000, 8⟩] } : SampleStream),
              { Metric := some 1, Values := [⟨1000, 9⟩] }],
        ∀ r, i.Metric = some r → r < ([[("job", "a")], [("job", "b")]] : Heap).length) ∧
    ∃ h' bps, valueToInfluxdb ⟨"db", 0, 1, 1, 1, 0, "m", "ns", ""⟩ "up"
        [[("job", "a")], [("job", "b")]]
        (Value.Matrix [some { Metric := some 0, Values := [⟨1000, 7⟩, ⟨2000, 8⟩] },
          some { Metric := some 1, Values := [⟨1000, 9⟩] }]) = .ok (h', bps) ∧
      bps.length = 2 :=
  ⟨by simp,
   by
    obtain ⟨h', bps, e, l, _⟩ := valueToInfluxdb_matrix ⟨"db", 0, 1, 1, 1, 0, "m", "ns", ""⟩ "up"
      [[("job", "a")], [("job", "b")]]
      [{ Metric := some 0, Values := [⟨1000, 7⟩, ⟨2000, 8⟩] },
        { Metric := some 1, Values := [⟨1000, 9⟩] }]
      (by simp)
    exact ⟨h', bps, e, l⟩⟩

/-! ## The value converter on a vector -/

theorem vector_loop (name : String) (M : String) (ext : Ref) (v : List Sample) :
    ∀ (hh : Heap) (bp : BatchPoints), ext < hh.length →
      Heap.read hh ext = [("monitor", M)] →
      (∀ i ∈ v, ∃ r, i.Metric = some r ∧ r < ext) →
      ∃ hh', vectorLoop name ext (v.map some) hh bp
          = .ok (hh', { bp with Points := bp.Points ++ v.map (vectorPoint name) }) ∧
        (∀ r, r < ext → Heap.read hh' r
          = if some r ∈ v.map Sample.Metric then TagMap.set (Heap.read hh r) "monitor" M
            else Heap.read hh r) := by
  induction v with
  | nil => intro hh bp _ _ _; exact ⟨hh, by simp [vectorLoop], by simp⟩
  | cons e rest ih =>
    intro hh bp hext hread hwf
    obtain ⟨re, hre, he⟩ := hwf e (List.mem_cons_self _ _)
    have he' : re < hh.length := lt_trans he hext
    have hread1 : Heap.read (Heap.assign hh re "monitor" M) ext = [("monitor", M)] := by
      rw [Heap.read_assign, if_neg (fun c => absurd c.1 (Nat.ne_of_gt he)), hread]
    obtain ⟨hh', ih1, ih2⟩ := ih (Heap.assign hh re "monitor" M)
      { bp with Points := bp.Points ++ [vectorPoint name e] }
      (by rw [Heap.length_assign]; exact hext) hread1
      (fun i hi => hwf i (List.mem_cons_of_mem _ hi))
    refine ⟨hh', ?_, ?_⟩
    · simp only [List.map_cons, vectorLoop, metricToTag, hre, hread, Heap.assignRange]
      have := ih1
      simp only [vectorPoint, hre] at this ⊢
      rw [this]
      simp
    · intro r hr
      rw [ih2 r hr, Heap.read_assign]
      by_cases h1 : r = re
      · subst h1
        have hm : some r ∈ List.map Sample.Metric (e :: rest) := by
          simp [hre]
        by_cases h2 : some r ∈ rest.map Sample.Metric
        · simp only [h2, if_true, hm, he', and_self, TagMap.set_set]
        · simp only [h2, if_false, hm, if_true, he', and_self]
      · have hne : ¬ (e.Metric = some r) := by
          rw [hre]; intro c; exact h1 (Option.some.inj c).symm
        by_cases h2 : some r ∈ rest.map Sample.Metric
        · have hm : some r ∈ List.map Sample.Metric (e :: rest) := by
            simp only [List.map_cons, List.mem_cons]; exact Or.inr h2
          simp only [h2, if_true, hm, h1, false_and, if_false]
        · have hm : ¬ some r ∈ List.map Sample.Metric (e :: rest) := by
            simp only [List.map_cons, List.mem_cons, not_or]
            exact ⟨fun c => hne c.symm, h2⟩
          simp only [h2, if_false, hm, h1, false_and]

theorem vector_closed_form (t : Trans) (name : String) (h : Heap) (v : List Sample)
    (hwf : ∀ i ∈ v, ∃ r, i.Metric = some r ∧ r < h.length) :
    ∃ h', valueToInfluxdb t name h (Value.Vector (v.map some))
        = .ok (h', [{ Database := t.Database, Precision := t.Precision,
                      Points := v.map (vectorPoint name) }]) ∧
      (∀ r, r < h.length → Heap.read h' r
        = if some r ∈ v.map Sample.Metric
          then TagMap.set (Heap.read h r) "monitor" t.MonitorLabel
          else Heap.read h r) := by
  obtain ⟨h', e1, e2⟩ := vector_loop name t.MonitorLabel h.length v
    (h ++ [[("monitor", t.MonitorLabel)]]) { Database := t.Database, Precision := t.Precision }
    (by simp) (Heap.read_append_length _ _) hwf
  refine ⟨h', ?_, ?_⟩
  · simp only [valueToInfluxdb, Heap.alloc, e1]
    simp
  · intro r hr
    rw [e2 r hr, Heap.read_append_left _ _ _ hr]

theorem vector_elements (h : Heap) (l : List (Option Sample))
    (hwf : ∀ e ∈ l, ∃ i r, e = some i ∧ i.Metric = some r ∧ r < h.length) :
    ∃ v : List Sample, l = v.map some ∧ ∀ i ∈ v, ∃ r, i.Metric = some r ∧ r < h.length := by
  induction l with
  | nil => exact ⟨[], rfl, by simp⟩
  | cons e l ih =>
    obtain ⟨v, hl, hall⟩ := ih (fun e he => hwf e (List.mem_cons_of_mem _ he))
    obtain ⟨i, r, he, hr, hlt⟩ := hwf e (List.mem_cons_self _ _)
    refine ⟨i :: v, by simp [he, hl], ?_⟩
    intro j hj
    rcases List.mem_cons.1 hj with rfl | hj
    · exact ⟨r, hr, hlt⟩
    · exact hall j hj

/-- Claim C4, amended: on a vector whose elements are non-nil and each carry a
non-nil label map, `valueToInfluxdb` returns (it does not panic) exactly one
batch with one point per element, in order; the tag map of point `n` is the
label map of element `n`, and after the call it holds monitor =
`t.MonitorLabel` and, under every other key, what the element's label map held
before the call: a "monitor" label of the series is replaced by the external
label. -/
theorem valueToInfluxdb_vector (t : Trans) (name : String) (h : Heap) (l : List (Option Sample))
    (hwf : ∀ e ∈ l, ∃ i r, e = some i ∧ i.Metric = some r ∧ r < h.length) :
    ∃ h' b, valueToInfluxdb t name h (Value.Vector l) = .ok (h', [b]) ∧
      b.Points.length = l.length ∧
      ∀ (n : Nat) (i : Sample), l[n]? = some (some i) →
        ∃ p r, b.Points[n]? = some p ∧ p.Measurement = name ∧
          p.Tags = some r ∧ i.Metric = some r ∧
          (∀ k, TagMap.get? (Heap.read h' r) k
            = if k = "monitor" then some t.MonitorLabel
              else TagMap.get? (Heap.read h r) k) := by
  obtain ⟨v, rfl, hv⟩ := vector_elements h l hwf
  obtain ⟨h', e1, e2⟩ := vector_closed_form t name h v hv
  refine ⟨h', _, e1, by simp, ?_⟩
  intro n i hn
  have hn' : v[n]? = some i := by
    rw [List.getElem?_map] at hn
    cases hvn : v[n]? with
    | none => rw [hvn] at hn; simp at hn
    | some j => rw [hvn] at hn; simpa using hn
  have hi : i ∈ v := List.getElem?_mem hn'
  obtain ⟨r, hr, hlt⟩ := hv i hi
  refine ⟨vectorPoint name i, r, by simp [hn'], rfl, by simp [vectorPoint, hr], hr, ?_⟩
  intro k
  have hm : some r ∈ v.map Sample.Metric := by
    rw [← hr]; exact List.mem_map_of_mem _ hi
  rw [e2 r hlt, if_pos hm, TagMap.get?_set]

/-- The hypothesis of `valueToInfluxdb_vector` at a vector whose first element
carries its own "monitor" label. -/
theorem valueToInfluxdb_vector_witness :
    (∀ e ∈ [some ({ Metric := some 0, Value := 7, Timestamp := 1000 } : Sample),
              some { Metric := some 1, Value := 8, Timestamp := 1000 }],
        ∃ i r, e = some i ∧ i.Metric = some r
          ∧ r < ([[("monitor", "old"), ("job", "a")], [("job", "b")]] : Heap).length) ∧
    ∃ h' b, valueToInfluxdb ⟨"db", 0, 1, 1, 1, 0, "m", "ns", ""⟩ "up"
        [[("monitor", "old"), ("job", "a")], [("job", "b")]]
        (Value.Vector [some { Metric := some 0, Value := 7, Timestamp := 1000 },
          some { Metric := some 1, Value := 8, Timestamp := 1000 }]) = .ok (h', [b]) ∧
      b.Points.length = 2 :=
  ⟨by simp,
   by
    obtain ⟨h', b, e, l, _⟩ := valueToInfluxdb_vector ⟨"db", 0, 1, 1, 1, 0, "m", "ns", ""⟩ "up"
      [[("monitor", "old"), ("job", "a")], [("job", "b")]]
      [some { Metric := some 0, Value := 7, Timestamp := 1000 },
        some { Metric := some 1, Value := 8, Timestamp := 1000 }]
      (by simp)
    exact ⟨h', b, e, l⟩⟩

/-- Claim C4 as stated fails: on a vector of one element whose label map is
nil, `valueToInfluxdb` panics at `tags[k] = v` and returns no batch; on a
vector whose one element is a nil pointer it panics at `i.Metric`. -/
theorem valueToInfluxdb_vector_nil_map :
    valueToInfluxdb ⟨"db", 0, 1, 1, 1, 0, "m", "ns", ""⟩ "up" []
        (Value.Vector [some { Metric := none, Value := 7, Timestamp := 1000 }])
      = .error (Panic.runtime "assignment to entry in nil map") ∧
    valueToInfluxdb ⟨"db", 0, 1, 1, 1, 0, "m", "ns", ""⟩ "up" [] (Value.Vector [none])
      = .error (Panic.runtime "invalid memory address or nil pointer dereference") :=
  ⟨rfl, rfl⟩

/-! ## The value converter on a scalar -/

/-- Claim C5: on a scalar with instant `ts` (milliseconds) and value `x`,
`valueToInfluxdb` returns exactly one batch holding exactly one point; the
tag map of the point has exactly the contents monitor = `t.MonitorLabel`, its
field "value" is `x`, and the time of the batch is the instant `ts` minus
exactly 15 days, that is `ts * 10^6 - 15 * 24 * 3600 * 10^9` nanoseconds. -/
theorem valueToInfluxdb_scalar (t : Trans) (name : String) (h : Heap) (x : SampleValue) (ts : Int) :
    ∃ h' b p r, valueToInfluxdb t name h (Value.Scalar (some { Value := x, Timestamp := ts })) = .ok (h', [b]) ∧
      b.Points = [p] ∧
      p.Tags = some r ∧ Heap.read h' r = [("monitor", t.MonitorLabel)] ∧
      p.Fields = [("value", FieldValue.float64 x)] ∧
      b.Time = ModelTime.Time ts - 15 * (24 * Hour) ∧
      b.Time = ts * 1000000 - 15 * 24 * 3600 * 1000000000 := by
  have hd : Duration.mul (Duration.mul Hour 24) 15 = 15 * (24 * Hour) := by decide
  refine ⟨h ++ [[("monitor", t.MonitorLabel)]], _, _, h.length, rfl, rfl, rfl,
    Heap.read_append_length _ _, rfl, ?_, ?_⟩
  · show Time.Add (ModelTime.Time ts) (-(Duration.mul (Duration.mul Hour 24) 15)) = _
    rw [hd]; unfold Time.Add; ring
  · show Time.Add (ModelTime.Time ts) (-(Duration.mul (Duration.mul Hour 24) 15)) = _
    rw [hd, ModelTime.Time_eq]; unfold Time.Add Hour; ring

/-! ## Unknown result shapes, and panics inside the known ones -/

theorem all_isSome_eq_map {α : Type} (l : List (Option α)) (hl : l.all Option.isSome = true) :
    ∃ m : List α, l = m.map some := by
  induction l with
  | nil => exact ⟨[], rfl⟩
  | cons a l ih =>
    simp only [List.all_cons, Bool.and_eq_true] at hl
    obtain ⟨m, hm⟩ := ih hl.2
    cases a with
    | none => simp at hl
    | some x => exact ⟨x :: m, by simp [hm]⟩

theorem assignRange_some (r : Ref) (src : TagMap) :
    ∀ h : Heap, ∃ h', Heap.assignRange h (some r) src = .ok h' := by
  induction src with
  | nil => intro h; exact ⟨h, rfl⟩
  | cons kv src ih =>
    intro h
    obtain ⟨k, v⟩ := kv
    simp only [Heap.assignRange]
    exact ih _

theorem vectorLoop_ok (name : String) (ext : Ref) (l : List (Option Sample))
    (hl : (Value.Vector l).Valid = true) :
    ∀ (hh : Heap) (bp : BatchPoints), ∃ res, vectorLoop name ext l hh bp = .ok res := by
  induction l with
  | nil => intro hh bp; exact ⟨_, rfl⟩
  | cons a l ih =>
    intro hh bp
    simp only [Value.Valid, List.all_cons, Bool.and_eq_true] at hl ih
    cases a with
    | none => simp at hl
    | some x =>
      cases hx : x.Metric with
      | none => simp [hx] at hl
      | some r =>
        obtain ⟨h1, e1⟩ := assignRange_some r (Heap.read hh ext) hh
        simp only [vectorLoop, metricToTag, hx, e1]
        exact ih hl.2 _ _

theorem valueToInfluxdb_total (t : Trans) (name : String) (h : Heap) (v : Value)
    (hv : v.Valid = true) : ∃ r, valueToInfluxdb t name h v = .ok r := by
  cases v with
  | Matrix l =>
    obtain ⟨m, rfl⟩ := all_isSome_eq_map l hv
    exact ⟨_, matrix_closed_form t name h m⟩
  | Vector l =>
    obtain ⟨res, e⟩ := vectorLoop_ok name h.length l hv (h ++ [[("monitor", t.MonitorLabel)]])
      { Database := t.Database, Precision := t.Precision }
    obtain ⟨h', b⟩ := res
    exact ⟨(h', [b]), by simp only [valueToInfluxdb, Heap.alloc, e]⟩
  | Scalar s =>
    cases s with
    | none => simp [Value.Valid] at hv
    | some s => exact ⟨_, rfl⟩
  | String s =>
    cases s with
    | none => simp [Value.Valid] at hv
    | some s => exact ⟨_, rfl⟩
  | Other => simp [Value.Valid] at hv

theorem matrixLoop_nil_element (t : Trans) (name : String) (ext : Ref)
    (l : List (Option SampleStream)) (hl : l.all Option.isSome = false) :
    ∀ bps, matrixLoop t name ext l bps = .error nilDereference := by
  induction l with
  | nil => simp at hl
  | cons a l ih =>
    intro bps
    cases a with
    | none => rfl
    | some x =>
      simp only [List.all_cons, Option.isSome_some, Bool.true_and] at hl
      simp only [matrixLoop]
      exact ih hl _

theorem vectorLoop_nil (name : String) (M : String) (ext : Ref) (l : List (Option Sample))
    (hl : (Value.Vector l).Valid = false) :
    ∀ (hh : Heap) (bp : BatchPoints), Heap.read hh ext = [("monitor", M)] →
      ∃ m, vectorLoop name ext l hh bp = .error (Panic.runtime m) := by
  induction l with
  | nil => simp [Value.Valid] at hl
  | cons a l ih =>
    intro hh bp hread
    cases a with
    | none => exact ⟨_, rfl⟩
    | some x =>
      cases hx : x.Metric with
      | none =>
        refine ⟨"assignment to entry in nil map", ?_⟩
        simp [vectorLoop, metricToTag, hx, hread, Heap.assignRange, nilMapAssignment]
      | some r =>
        simp only [Value.Valid, List.all_cons, hx, Option.isSome_some, Bool.true_and] at hl ih
        have hread1 : Heap.read (Heap.assign hh r "monitor" M) ext = [("monitor", M)] := by
          rw [Heap.read_assign]
          split
          · next c => rw [← c.1, hread]; rfl
          · exact hread
        obtain ⟨m, hm⟩ := ih hl (Heap.assign hh r "monitor" M)
          { bp with Points := bp.Points ++ [vectorPoint name x] } hread1
        refine ⟨m, ?_⟩
        simp only [vectorLoop, metricToTag, hx, hread, Heap.assignRange]
        simpa [vectorPoint, hx] using hm

theorem valueToInfluxdb_panics (t : Trans) (name : String) (h : Heap) (v : Value)
    (hk : v ≠ Value.Other) (hv : v.Valid = false) :
    ∃ m, valueToInfluxdb t name h v = .error (Panic.runtime m) := by
  cases v with
  | Matrix l =>
    refine ⟨"invalid memory address or nil pointer dereference", ?_⟩
    simp only [valueToInfluxdb, Heap.alloc, matrixLoop_nil_element t name _ l hv]
    rfl
  | Vector l =>
    obtain ⟨m, hm⟩ := vectorLoop_nil name t.MonitorLabel h.length l hv
      (h ++ [[("monitor", t.MonitorLabel)]])
      { Database := t.Database, Precision := t.Precision } (Heap.read_append_length _ _)
    refine ⟨m, ?_⟩
    simp only [valueToInfluxdb, Heap.alloc, hm]
  | Scalar s =>
    cases s with
    | none => exact ⟨_, rfl⟩
    | some s => simp [Value.Valid] at hv
  | String s =>
    cases s with
    | none => exact ⟨_, rfl⟩
    | some s => simp [Value.Valid] at hv
  | Other => exact absurd rfl hk

/-- Claim C6, amended: on a query result of any dynamic type other than the
four of the type switch `valueToInfluxdb` panics ("unknown type") and returns no
batch, and a turn of the loop of `runOne` whose query returns such a result
ends `runOne` in that panic, the query being the only call made in that turn
(no `Write` call).  On a value of one of the four types `valueToInfluxdb`
returns batches when the value holds no nil pointer and no vector element with
a nil label map (its label maps being allocated maps of the heap), and it
panics with a run-time error when it holds one. -/
theorem valueToInfluxdb_unknown (t : Trans) (name : String) :
    (∀ h, valueToInfluxdb t name h Value.Other = .error (Panic.msg "unknown type")) ∧
    (∀ h v, v.Valid = true → v.Allocated h = true → ∃ r, valueToInfluxdb t name h v = .ok r) ∧
    (∀ h v, v ≠ Value.Other → v.Valid = false →
      ∃ m, valueToInfluxdb t name h v = .error (Panic.runtime m)) ∧
    (∀ (σ : Type) (env : Env σ) (finish start : Time) (fuel : Nat) (s s' : σ) (h : Heap),
      Time.Before start finish = true →
      env.QueryRange s name
          { Start := start
            End := Time.Add start (Duration.mul (Duration.mul t.Step 60) 1)
            Step := t.Step } = (s', .ok (h, Value.Other)) →
      runOneLoop env t name finish (fuel + 1) start s
        = (s', [Event.query name
            { Start := start
              End := Time.Add start (Duration.mul (Duration.mul t.Step 60) 1)
              Step := t.Step }], Outcome.panicked (Panic.msg "unknown type"))) := by
  refine ⟨fun h => rfl, fun h v hv _ => valueToInfluxdb_total t name h v hv,
    fun h v hk hv => valueToInfluxdb_panics t name h v hk hv, ?_⟩
  intro σ env finish start fuel s s' h hb hq
  simp only [runOneLoop, hb, if_true, runWindow, hq]
  rfl

/-- The last part of `valueToInfluxdb_unknown` at `unknownEnv`: the sink
state is still 0 afterwards. -/
theorem valueToInfluxdb_unknown_witness :
    runOneLoop unknownEnv ⟨"db", 0, 100, 1, 1, 3, "m", "ns", ""⟩ "up" 100 (5 + 1) 0 0
      = (0, [Event.query "up" { Start := 0, End := 60, Step := 1 }],
          Outcome.panicked (Panic.msg "unknown type")) :=
  (valueToInfluxdb_unknown ⟨"db", 0, 100, 1, 1, 3, "m", "ns", ""⟩ "up").2.2.2
    Nat unknownEnv 100 0 5 0 0 [] (by decide) rfl

/-- Claim C6 as stated fails: `valueToInfluxdb` is not total on the four
types.  It panics on a nil `*model.Scalar`, on a nil `*model.String`, on a
vector element whose label map is nil, and on a nil element of a matrix. -/
theorem valueToInfluxdb_not_total :
    valueToInfluxdb ⟨"db", 0, 1, 1, 1, 0, "m", "ns", ""⟩ "up" [] (Value.Scalar none)
      = .error (Panic.runtime "invalid memory address or nil pointer dereference") ∧
    valueToInfluxdb ⟨"db", 0, 1, 1, 1, 0, "m", "ns", ""⟩ "up" [] (Value.String none)
      = .error (Panic.runtime "invalid memory address or nil pointer dereference") ∧
    valueToInfluxdb ⟨"db", 0, 1, 1, 1, 0, "m", "ns", ""⟩ "up" [[("job", "a")]]
        (Value.Vector [some { Metric := some 0, Value := 7, Timestamp := 1000 },
          some { Metric := none, Value := 8, Timestamp := 1000 }])
      = .error (Panic.runtime "assignment to entry in nil map") ∧
    valueToInfluxdb ⟨"db", 0, 1, 1, 1, 0, "m", "ns", ""⟩ "up" [] (Value.Matrix [none])
      = .error (Panic.runtime "invalid memory address or nil pointer dereference") :=
  ⟨rfl, rfl, rfl, rfl⟩

/-! ## The retry loop -/

theorem writeCalls_succ {σ : Type} (env : Env σ) (h : Heap) (i : BatchPoints) (s : σ) (n : Nat) :
    writeCalls env h i s (n + 1)
      = Event.write i (pointTags h i) (env.Write s h i).2
          :: writeCalls env h i (env.Write s h i).1 n := by
  unfold writeCalls
  rw [List.range_succ_eq_map]
  simp only [List.map_cons, List.map_map]
  rfl

theorem writeTry_first_success {σ : Type} (env : Env σ) (h : Heap) (i : BatchPoints) :
    ∀ (j n : Nat) (s : σ) (err : Option Err), j < n →
      (∀ k < j, sinkResult env h i k s ≠ none) → sinkResult env h i j s = none →
      writeTry env h i n s err
        = (sinkAfter env h i (j + 1) s, writeCalls env h i s (j + 1), none) := by
  intro j
  induction j with
  | zero =>
    intro n s err hn _ h0
    obtain ⟨n, rfl⟩ : ∃ m, n = m + 1 := ⟨n - 1, by omega⟩
    have h0' : (env.Write s h i).2 = none := h0
    rw [writeCalls_succ, h0']
    unfold writeTry
    cases e : env.Write s h i with
    | mk s1 r =>
      rw [e] at h0'
      simp only at h0'
      subst h0'
      simp [sinkAfter, e, writeCalls]
  | succ j ih =>
    intro n s err hn hf h0
    obtain ⟨n, rfl⟩ : ∃ m, n = m + 1 := ⟨n - 1, by omega⟩
    have hfail : (env.Write s h i).2 ≠ none := hf 0 (Nat.succ_pos j)
    rw [writeCalls_succ]
    unfold writeTry
    cases e : env.Write s h i with
    | mk s1 r =>
      rw [e] at hfail
      cases r with
      | none => exact absurd rfl hfail
      | some x =>
        have hs1 : s1 = (env.Write s h i).1 := by rw [e]
        have := ih n s1 (some x) (by omega)
          (fun k hk => by rw [hs1]; exact hf (k + 1) (by omega))
          (by rw [hs1]; exact h0)
        simp only [this]
        simp [sinkAfter, e]

theorem writeTry_all_fail {σ : Type} (env : Env σ) (h : Heap) (i : BatchPoints) :
    ∀ (n : Nat) (s : σ) (x : Err), (∀ k ≤ n, sinkResult env h i k s ≠ none) →
      ∃ e, sinkResult env h i n s = some e ∧
        writeTry env h i (n + 1) s (some x)
          = (sinkAfter env h i (n + 1) s, writeCalls env h i s (n + 1), some e) := by
  intro n
  induction n with
  | zero =>
    intro s x hf
    have hfail : (env.Write s h i).2 ≠ none := hf 0 (Nat.le_refl 0)
    rw [writeCalls_succ]
    unfold writeTry
    cases e : env.Write s h i with
    | mk s1 r =>
      rw [e] at hfail
      cases r with
      | none => exact absurd rfl hfail
      | some y =>
        refine ⟨y, by simp [sinkResult, sinkAfter, e], ?_⟩
        simp [writeTry, sinkAfter, e, writeCalls]
  | succ n ih =>
    intro s x hf
    have hfail : (env.Write s h i).2 ≠ none := hf 0 (Nat.zero_le _)
    rw [writeCalls_succ]
    unfold writeTry
    cases e : env.Write s h i with
    | mk s1 r =>
      rw [e] at hfail
      cases r with
      | none => exact absurd rfl hfail
      | some y =>
        have hs1 : s1 = (env.Write s h i).1 := by rw [e]
        obtain ⟨z, hz, hrun⟩ := ih s1 y (fun k hk => by rw [hs1]; exact hf (k + 1) (by omega))
        refine ⟨z, by rw [hs1] at hz; exact hz, ?_⟩
        simp only [hrun]
        simp [sinkAfter, e]

/-- Claim C1: for a retry limit `R = t.Retry >= 0` and any batch, (1) if call
number `j + 1 <= R + 1` of the sink is its first successful one, the batch
succeeds and the `Write` calls made are exactly the calls `1 .. j + 1`, none
after the success; with `j = R` this is the sink that fails `R` times and then
succeeds, with exactly `R + 1` calls; (2) if the first `R + 1` calls all fail,
the calls made are exactly these `R + 1` and the code panics with the error of
the last one; (3) in `runOne`, when that happens to the first batch of a
window, the job ends in that panic, its calls in that turn being the query and
these `R + 1` writes.  So the number of calls is the minimum of `R + 1` and the
index of the first successful call. -/
theorem writeBatch_retry {σ : Type} (env : Env σ) (t : Trans) (h : Heap) (i : BatchPoints) (s : σ)
    (hR : 0 ≤ t.Retry) :
    (∀ j : Nat, j ≤ t.Retry.toNat →
      (∀ k < j, sinkResult env h i k s ≠ none) → sinkResult env h i j s = none →
      writeBatch env t h i s
          = (sinkAfter env h i (j + 1) s, writeCalls env h i s (j + 1), .ok ()) ∧
        (writeCalls env h i s (j + 1)).length = min (j + 1) (t.Retry.toNat + 1)) ∧
    ((∀ k ≤ t.Retry.toNat, sinkResult env h i k s ≠ none) →
      ∃ e, sinkResult env h i t.Retry.toNat s = some e ∧
        writeBatch env t h i s
          = (sinkAfter env h i (t.Retry.toNat + 1) s,
              writeCalls env h i s (t.Retry.toNat + 1), .error (Panic.err e)) ∧
        (writeCalls env h i s (t.Retry.toNat + 1)).length = t.Retry.toNat + 1) ∧
    (∀ (name : String) (finish start : Time) (fuel : Nat) (s0 : σ) (hq h' : Heap) (v : Value)
        (rest : List BatchPoints),
      Time.Before start finish = true →
      env.QueryRange s0 name
          { Start := start
            End := Time.Add start (Duration.mul (Duration.mul t.Step 60) 1)
            Step := t.Step } = (s, .ok (hq, v)) →
      valueToInfluxdb t name hq v = .ok (h', i :: rest) →
      h = mergeTags h' i →
      (∀ k ≤ t.Retry.toNat, sinkResult env h i k s ≠ none) →
      ∃ e, sinkResult env h i t.Retry.toNat s = some e ∧
        runOneLoop env t name finish (fuel + 1) start s0
          = (sinkAfter env h i (t.Retry.toNat + 1) s,
              Event.query name
                { Start := start
                  End := Time.Add start (Duration.mul (Duration.mul t.Step 60) 1)
                  Step := t.Step } :: writeCalls env h i s (t.Retry.toNat + 1),
              Outcome.panicked (Panic.err e))) := by
  have hn : (t.Retry + 1).toNat = t.Retry.toNat + 1 := by omega
  have hfail : (∀ k ≤ t.Retry.toNat, sinkResult env h i k s ≠ none) →
      ∃ e, sinkResult env h i t.Retry.toNat s = some e ∧
        writeBatch env t h i s
          = (sinkAfter env h i (t.Retry.toNat + 1) s,
              writeCalls env h i s (t.Retry.toNat + 1), .error (Panic.err e)) := by
    intro hf
    obtain ⟨e, he, hrun⟩ := writeTry_all_fail env h i t.Retry.toNat s "" hf
    refine ⟨e, he, ?_⟩
    unfold writeBatch
    rw [hn]
    have : writeTry env h i (t.Retry.toNat + 1) s none
        = writeTry env h i (t.Retry.toNat + 1) s (some "") := by
      simp [writeTry]
    rw [this, hrun]
  refine ⟨?_, ?_, ?_⟩
  · intro j hj hf h0
    refine ⟨?_, by simp [writeCalls]; omega⟩
    unfold writeBatch
    rw [hn, writeTry_first_success env h i j _ s none (by omega) hf h0]
  · intro hf
    obtain ⟨e, he, hrun⟩ := hfail hf
    exact ⟨e, he, hrun, by simp [writeCalls]⟩
  · intro name finish start fuel s0 hq h' v rest hb hquery hconv hh hf
    obtain ⟨e, he, hrun⟩ := hfail hf
    refine ⟨e, he, ?_⟩
    subst hh
    simp only [runOneLoop, hb, if_true, runWindow, hquery, hconv, writeAll, hrun]

/-- The first part of `writeBatch_retry` at retry limit 2 and a sink that fails
twice and then succeeds: three calls, and the batch succeeds. -/
theorem writeBatch_retry_witness :
    (0 : Int) ≤ (⟨"db", 0, 100, 1, 1, 2, "m", "ns", ""⟩ : Trans).Retry ∧
    writeBatch flakyEnv ⟨"db", 0, 100, 1, 1, 2, "m", "ns", ""⟩ [] {} 0
      = (3, writeCalls flakyEnv [] {} 0 3, .ok ()) ∧
    (writeCalls flakyEnv [] {} 0 3).length = 3 :=
  ⟨by decide,
    ((writeBatch_retry flakyEnv ⟨"db", 0, 100, 1, 1, 2, "m", "ns", ""⟩ [] {} 0 (by decide)).1
      2 (by decide) (by decide) (by decide)).1,
    by decide⟩

/-! ## The window walk -/

theorem queriesOf_append (a b : List Event) : queriesOf (a ++ b) = queriesOf a ++ queriesOf b := by
  induction a with
  | nil => rfl
  | cons e a ih => cases e <;> simp [queriesOf, ih]

theorem writeTry_queriesOf {σ : Type} (env : Env σ) (h : Heap) (i : BatchPoints) :
    ∀ (n : Nat) (s : σ) (err : Option Err), queriesOf (writeTry env h i n s err).2.1 = [] := by
  intro n
  induction n with
  | zero => intro s err; rfl
  | succ n ih =>
    intro s err
    unfold writeTry
    cases e : env.Write s h i with
    | mk s1 r =>
      cases r with
      | none => rfl
      | some x => simpa [queriesOf] using ih s1 (some x)

theorem writeBatch_queriesOf {σ : Type} (env : Env σ) (t : Trans) (h : Heap) (i : BatchPoints)
    (s : σ) : queriesOf (writeBatch env t h i s).2.1 = [] := by
  have := writeTry_queriesOf env h i (t.Retry + 1).toNat s none
  unfold writeBatch
  cases e : writeTry env h i (t.Retry + 1).toNat s none with
  | mk s1 r =>
    obtain ⟨ev, err⟩ := r
    rw [e] at this
    cases err <;> simpa using this

theorem writeAll_queriesOf {σ : Type} (env : Env σ) (t : Trans) (bps : List BatchPoints) :
    ∀ (h : Heap) (s : σ), queriesOf (writeAll env t h bps s).2.1 = [] := by
  induction bps with
  | nil => intro h s; rfl
  | cons i bps ih =>
    intro h s
    have hb := writeBatch_queriesOf env t (mergeTags h i) i s
    cases e : writeBatch env t (mergeTags h i) i s with
    | mk s1 r =>
      obtain ⟨ev, res⟩ := r
      rw [e] at hb
      simp only at hb
      cases res with
      | error p =>
        simp only [writeAll, e]
        exact hb
      | ok u =>
        have := ih (mergeTags h i) s1
        simp only [writeAll, e, queriesOf_append]
        rw [hb, this]; rfl

theorem writeTry_ok {σ : Type} (env : Env σ) (h : Heap) (i : BatchPoints)
    (hw : ∀ s h b, (env.Write s h b).2 = none) (n : Nat) (s : σ) :
    (writeTry env h i n s none).2.2 = none := by
  cases n with
  | zero => rfl
  | succ n =>
    unfold writeTry
    have := hw s h i
    cases e : env.Write s h i with
    | mk s1 r =>
      rw [e] at this
      simp only at this
      subst this
      rfl

theorem writeBatch_ok {σ : Type} (env : Env σ) (t : Trans) (h : Heap) (i : BatchPoints)
    (hw : ∀ s h b, (env.Write s h b).2 = none) (s : σ) :
    (writeBatch env t h i s).2.2 = .ok () := by
  have := writeTry_ok env h i hw (t.Retry + 1).toNat s
  unfold writeBatch
  cases e : writeTry env h i (t.Retry + 1).toNat s none with
  | mk s1 r =>
    obtain ⟨ev, err⟩ := r
    rw [e] at this
    simp only at this
    subst this
    rfl

theorem writeAll_ok {σ : Type} (env : Env σ) (t : Trans)
    (hw : ∀ s h b, (env.Write s h b).2 = none) (bps : List BatchPoints) :
    ∀ (h : Heap) (s : σ), (writeAll env t h bps s).2.2 = .ok () := by
  induction bps with
  | nil => intro h s; rfl
  | cons i bps ih =>
    intro h s
    have hb := writeBatch_ok env t (mergeTags h i) i hw s
    cases e : writeBatch env t (mergeTags h i) i s with
    | mk s1 r =>
      obtain ⟨ev, res⟩ := r
      rw [e] at hb
      simp only at hb
      subst hb
      simp only [writeAll, e]
      exact ih (mergeTags h i) s1

theorem runWindow_ok {σ : Type} (env : Env σ) (t : Trans) (name : String)
    (hq : ∀ s r, ∃ s' h v, env.QueryRange s name r = (s', .ok (h, v)) ∧ v.Valid = true)
    (hw : ∀ s h b, (env.Write s h b).2 = none) (start end_ : Time) (s : σ) :
    ∃ s' ev, runWindow env t name start end_ s = (s', ev, .ok ()) ∧
      queriesOf ev = [{ Start := start, End := end_, Step := t.Step }] := by
  obtain ⟨s1, h, v, e1, hv⟩ := hq s { Start := start, End := end_, Step := t.Step }
  obtain ⟨⟨h2, bps⟩, e2⟩ := valueToInfluxdb_total t name h v hv
  have e3 := writeAll_ok env t hw bps h2 s1
  have e4 := writeAll_queriesOf env t bps h2 s1
  unfold runWindow
  simp only [e1, e2]
  cases e : writeAll env t h2 bps s1 with
  | mk s3 r =>
    obtain ⟨ev, res⟩ := r
    rw [e] at e3 e4
    simp only at e3 e4
    subst e3
    exact ⟨s3, _, rfl, by simp [queriesOf, e4]⟩

theorem runOneLoop_windows {σ : Type} (env : Env σ) (t : Trans) (name : String) (w : Duration)
    (hwd : Duration.mul (Duration.mul t.Step 60) 1 = w)
    (hq : ∀ s r, ∃ s' h v, env.QueryRange s name r = (s', .ok (h, v)) ∧ v.Valid = true)
    (hw : ∀ s h b, (env.Write s h b).2 = none) (finish : Time) :
    ∀ (n fuel : Nat) (start : Time) (s : σ), n < fuel →
      finish ≤ start + n * w → (∀ k : Nat, k < n → start + k * w < finish) →
      ∃ s' ev, runOneLoop env t name finish fuel start s = (s', ev, Outcome.returned none) ∧
        queriesOf ev = (List.range n).map (window start w t.Step) ∧
        (n = 0 → ev = []) := by
  intro n
  induction n with
  | zero =>
    intro fuel start s hf hle _
    obtain ⟨fuel, rfl⟩ : ∃ m, fuel = m + 1 := ⟨fuel - 1, by omega⟩
    have hb : Time.Before start finish = false := by
      simp only [Time.Before, decide_eq_false_iff_not, not_lt]
      simpa using hle
    refine ⟨s, [], ?_, rfl, fun _ => rfl⟩
    simp [runOneLoop, hb]
  | succ n ih =>
    intro fuel start s hf hle hlt
    obtain ⟨fuel, rfl⟩ : ∃ m, fuel = m + 1 := ⟨fuel - 1, by omega⟩
    have hb : Time.Before start finish = true := by
      simp only [Time.Before, decide_eq_true_eq]
      simpa using hlt 0 (Nat.succ_pos n)
    obtain ⟨s1, ev1, e1, q1⟩ := runWindow_ok env t name hq hw start (Time.Add start w) s
    obtain ⟨s2, ev2, e2, q2, _⟩ := ih fuel (Time.Add start w) s1 (by omega)
      (by unfold Time.Add; push_cast at hle; linarith)
      (fun k hk => by
        have := hlt (k + 1) (by omega)
        unfold Time.Add; push_cast at this; linarith)
    refine ⟨s2, ev1 ++ ev2, ?_, ?_, fun h => absurd h (Nat.succ_ne_zero n)⟩
    · simp [runOneLoop, hb, hwd, e1, e2]
    · rw [queriesOf_append, q1, q2, List.range_succ_eq_map]
      simp only [List.map_cons, List.map_map, List.singleton_append]
      congr 1
      · simp [window, Time.Add]
      · apply List.map_congr_left
        intro k _
        simp only [window, Function.comp, Time.Add]
        congr 1 <;> (push_cast; ring)
theorem numWindows_spec (start finish : Time) (w : Duration) (hw0 : 0 < w) :
    finish ≤ start + (numWindows start finish w : Nat) * w ∧
    (∀ k : Nat, k < numWindows start finish w → start + k * w < finish) := by
  have hdiv := Int.ediv_add_emod (finish - start + w - 1) w
  have hr0 := Int.emod_nonneg (finish - start + w - 1) (ne_of_gt hw0)
  have hr1 := Int.emod_lt_of_pos (finish - start + w - 1) hw0
  generalize hq : (finish - start + w - 1) / w = q at hdiv
  generalize (finish - start + w - 1) % w = r at hdiv hr0 hr1
  have hn : numWindows start finish w = q.toNat := by unfold numWindows; rw [hq]
  rw [hn]
  by_cases hq0 : 0 ≤ q
  · have hcast : ((q.toNat : Nat) : Int) = q := Int.toNat_of_nonneg hq0
    refine ⟨by rw [hcast]; linarith, ?_⟩
    intro k hk
    have hk2 : (k : Int) < ((q.toNat : Nat) : Int) := by exact_mod_cast hk
    have hk' : (k : Int) + 1 ≤ q := by rw [hcast] at hk2; exact hk2
    have : ((k : Int) + 1) * w ≤ q * w := mul_le_mul_of_nonneg_right hk' (le_of_lt hw0)
    linarith
  · have hq1 : q + 1 ≤ 0 := not_le.1 hq0
    have hz : q.toNat = 0 := Int.toNat_eq_zero.2 (by linarith)
    have : (q + 1) * w ≤ 0 * w := mul_le_mul_of_nonneg_right hq1 (le_of_lt hw0)
    rw [hz]
    refine ⟨by push_cast; linarith, fun k hk => absurd hk (Nat.not_lt_zero k)⟩

/-- Claim C2: for `Step > 0` with `Step * 60` in the int64 range, `W = Step *
60` and `n = ceil((End - Start) / W)` (0 when `Start >= End`), and a source and
sink whose every query and write succeeds (a query returning no error and a
value of one of the four known types that holds no nil pointer and no vector
element with a nil label map), `runOne` returns nil (given fuel for
more than `n` turns) after exactly `n` queries, query `k` being over `[Start +
k*W, Start + (k+1)*W]` at step `Step`.  Each window starts where the previous
one ends and strictly later; every instant of `[Start, End)` lies in a window;
when `Start < End` the last window ends at or after `End` and less than `W`
after it; when `Start >= End` no call is made at all. -/
theorem runOne_windows {σ : Type} (env : Env σ) (t : Trans) (name : String) (s : σ)
    (hStep : 0 < t.Step) (hOv : t.Step * 60 < 2 ^ 63)
    (hq : ∀ s r, ∃ s' h v, env.QueryRange s name r = (s', .ok (h, v)) ∧ v.Valid = true)
    (hw : ∀ s h b, (env.Write s h b).2 = none) :
    ∀ fuel : Nat, numWindows t.Start t.End (t.Step * 60) < fuel →
      ∃ s' ev, runOne env t name fuel s = (s', ev, Outcome.returned none) ∧
        queriesOf ev = (List.range (numWindows t.Start t.End (t.Step * 60))).map
          (window t.Start (t.Step * 60) t.Step) ∧
        (∀ k : Nat, (window t.Start (t.Step * 60) t.Step (k + 1)).Start
              = (window t.Start (t.Step * 60) t.Step k).End ∧
            (window t.Start (t.Step * 60) t.Step k).Start
              < (window t.Start (t.Step * 60) t.Step (k + 1)).Start) ∧
        (∀ x : Time, t.Start ≤ x → x < t.End →
          ∃ k, k < numWindows t.Start t.End (t.Step * 60) ∧
            (window t.Start (t.Step * 60) t.Step k).Start ≤ x ∧
            x < (window t.Start (t.Step * 60) t.Step k).End) ∧
        (t.Start < t.End →
          0 < numWindows t.Start t.End (t.Step * 60) ∧
          t.End ≤ (window t.Start (t.Step * 60) t.Step
            (numWindows t.Start t.End (t.Step * 60) - 1)).End ∧
          (window t.Start (t.Step * 60) t.Step
            (numWindows t.Start t.End (t.Step * 60) - 1)).End - t.End < t.Step * 60) ∧
        (t.End ≤ t.Start → ev = []) := by
  intro fuel hfuel
  have hw0 : 0 < t.Step * 60 := by linarith
  have hwd : Duration.mul (Duration.mul t.Step 60) 1 = t.Step * 60 := by
    unfold Duration.mul
    rw [wrapInt64_of_range (t.Step * 60) (by linarith) hOv, mul_one,
      wrapInt64_of_range (t.Step * 60) (by linarith) hOv]
  obtain ⟨ha, hb⟩ := numWindows_spec t.Start t.End (t.Step * 60) hw0
  obtain ⟨s', ev, e, q, z⟩ := runOneLoop_windows env t name (t.Step * 60) hwd hq hw t.End
    (numWindows t.Start t.End (t.Step * 60)) fuel t.Start s hfuel ha hb
  have hpos : t.Start < t.End → 0 < numWindows t.Start t.End (t.Step * 60) := by
    intro hlt
    rcases Nat.eq_zero_or_pos (numWindows t.Start t.End (t.Step * 60)) with h0 | h0
    · rw [h0] at ha; simp at ha; linarith
    · exact h0
  refine ⟨s', ev, e, q, ?_, ?_, ?_, ?_⟩
  · intro k
    simp only [window]
    constructor
    · push_cast; ring
    · push_cast; linarith
  · intro x hx1 hx2
    have hk0 : 0 ≤ (x - t.Start) / (t.Step * 60) := Int.ediv_nonneg (by linarith) (le_of_lt hw0)
    have hdiv := Int.ediv_add_emod (x - t.Start) (t.Step * 60)
    have hr0 := Int.emod_nonneg (x - t.Start) (ne_of_gt hw0)
    have hr1 := Int.emod_lt_of_pos (x - t.Start) hw0
    have hcast : ((((x - t.Start) / (t.Step * 60)).toNat : Nat) : Int)
        = (x - t.Start) / (t.Step * 60) := Int.toNat_of_nonneg hk0
    refine ⟨((x - t.Start) / (t.Step * 60)).toNat, ?_, ?_, ?_⟩
    · by_contra hge
      have hge' : numWindows t.Start t.End (t.Step * 60)
          ≤ ((x - t.Start) / (t.Step * 60)).toNat := Nat.le_of_not_lt hge
      have hge2 : ((numWindows t.Start t.End (t.Step * 60) : Nat) : Int)
          ≤ (x - t.Start) / (t.Step * 60) := by rw [← hcast]; exact_mod_cast hge'
      have := mul_le_mul_of_nonneg_right hge2 (le_of_lt hw0)
      linarith
    · simp only [window]; rw [hcast]; linarith
    · simp only [window]; rw [hcast]; linarith
  · intro hlt
    have hp := hpos hlt
    have hlast := hb (numWindows t.Start t.End (t.Step * 60) - 1) (by omega)
    have hc : (((numWindows t.Start t.End (t.Step * 60) - 1 : Nat) : Int) + 1)
        = ((numWindows t.Start t.End (t.Step * 60) : Nat) : Int) := by omega
    refine ⟨hp, ?_, ?_⟩
    · simp only [window]; rw [hc]; exact ha
    · have hm : ((numWindows t.Start t.End (t.Step * 60) : Nat) : Int) * (t.Step * 60)
          = ((numWindows t.Start t.End (t.Step * 60) - 1 : Nat) : Int) * (t.Step * 60)
            + t.Step * 60 := by rw [← hc]; ring
      simp only [window]; rw [hc]; linarith
  · intro hle
    apply z
    rcases Nat.eq_zero_or_pos (numWindows t.Start t.End (t.Step * 60)) with h0 | h0
    · exact h0
    · have := hb 0 h0
      simp at this
      linarith

/-- The hypotheses of `runOne_windows` at `Start = 0`, `End = 100`, `Step = 1`
and `steadyEnv`: two windows, `[0, 60]` and `[60, 120]`. -/
theorem runOne_windows_witness :
    numWindows 0 100 (1 * 60) = 2 ∧
    ∃ s' ev, runOne steadyEnv ⟨"db", 0, 100, 1, 1, 3, "m", "ns", ""⟩ "up" 3 0
        = (s', ev, Outcome.returned none) ∧
      queriesOf ev = [{ Start := 0, End := 60, Step := 1 }, { Start := 60, End := 120, Step := 1 }] := by
  refine ⟨by decide, ?_⟩
  obtain ⟨s', ev, e, q, _⟩ := runOne_windows steadyEnv ⟨"db", 0, 100, 1, 1, 3, "m", "ns", ""⟩ "up" 0
    (by decide) (by decide)
    (fun s r => ⟨s + 1, [[("job", "a")]],
      Value.Matrix [some { Metric := some 0, Values := [⟨1000, 7⟩] }], rfl, by decide⟩)
    (fun _ _ _ => rfl) 3 (by decide)
  exact ⟨s', ev, e, by rw [q]; decide⟩

/-! ## Metric names -/

theorem Run.setup_ok {σ : Type} (env : RunEnv σ) (t : Trans) (s : σ)
    (hStart : t.Start ≠ zeroTime) (hC : 0 ≤ t.C) :
    ∃ s1 t1, Run.setup env t s = (s1, .ok t1) := by
  have hn : ¬ t.C < 0 := not_lt.2 hC
  unfold Run.setup
  by_cases hE : t.End = zeroTime <;> by_cases hS : t.Step = 0 <;> by_cases h0 : t.C = 0 <;>
    simp [hE, hS, h0, hStart, hn]

theorem writeBatch_negative_retry {σ : Type} (env : Env σ) (t : Trans) (h : Heap)
    (i : BatchPoints) (s : σ) (hR : t.Retry < 0) :
    writeBatch env t h i s = (s, [], .ok ()) := by
  have hn : (t.Retry + 1).toNat = 0 := by omega
  unfold writeBatch
  rw [hn]
  rfl

theorem writeTry_accepted {σ : Type} (env : Env σ) (h : Heap) (i : BatchPoints) :
    ∀ (n : Nat) (s s' : σ) (err : Option Err) (ev : List Event),
      writeTry env h i (n + 1) s err = (s', ev, none) →
      Event.write i (pointTags h i) none ∈ ev := by
  intro n
  induction n with
  | zero =>
    intro s s' err ev hrun
    unfold writeTry at hrun
    cases e : env.Write s h i with
    | mk s1 r =>
      rw [e] at hrun
      cases r with
      | none =>
        simp only [Prod.mk.injEq] at hrun
        rw [← hrun.2.1]; simp
      | some x =>
        simp [writeTry] at hrun
  | succ n ih =>
    intro s s' err ev hrun
    unfold writeTry at hrun
    cases e : env.Write s h i with
    | mk s1 r =>
      rw [e] at hrun
      cases r with
      | none =>
        simp only [Prod.mk.injEq] at hrun
        rw [← hrun.2.1]; simp
      | some x =>
        simp only at hrun
        cases e2 : writeTry env h i (n + 1) s1 (some x) with
        | mk s2 r2 =>
          obtain ⟨ev2, err2⟩ := r2
          rw [e2] at hrun
          simp only [Prod.mk.injEq] at hrun
          obtain ⟨_, hev, herr⟩ := hrun
          subst herr
          have := ih s1 s2 (some x) ev2 e2
          rw [← hev]
          exact List.mem_cons_of_mem _ this

theorem writeBatch_accepted {σ : Type} (env : Env σ) (t : Trans) (h : Heap) (i : BatchPoints)
    (s s' : σ) (ev : List Event) (hR : 0 ≤ t.Retry)
    (hrun : writeBatch env t h i s = (s', ev, .ok ())) :
    Event.write i (pointTags h i) none ∈ ev := by
  have hn : (t.Retry + 1).toNat = t.Retry.toNat + 1 := by omega
  unfold writeBatch at hrun
  rw [hn] at hrun
  cases e : writeTry env h i (t.Retry.toNat + 1) s none with
  | mk s1 r =>
    obtain ⟨ev1, err⟩ := r
    rw [e] at hrun
    cases err with
    | some x => simp at hrun
    | none =>
      simp only [Prod.mk.injEq] at hrun
      rw [← hrun.2.1]
      exact writeTry_accepted env h i _ s s1 none ev1 e

/-- Claim C8 at `Retry = -1`: the query of the one window succeeds and the
converter produces two batches, the sink rejects every write, yet `runOne`
returns nil, and it does so without a single `Write` call (the only call made
is the query; the sink state is still 0). -/
theorem runOne_negative_retry :
    runOne rejectingEnv ⟨"db", 0, 60, 1, 1, -1, "m", "ns", ""⟩ "up" 2 0
      = (0, [Event.query "up" { Start := 0, End := 60, Step := 1 }], Outcome.returned none) ∧
    (∃ h bps, valueToInfluxdb ⟨"db", 0, 60, 1, 1, -1, "m", "ns", ""⟩ "up"
        [[("a", "1")], [("b", "2")]]
        (Value.Matrix [some { Metric := some 0, Values := [⟨0, 7⟩] },
          some { Metric := some 1, Values := [⟨5, 8⟩] }])
          = .ok (h, bps) ∧ bps.length = 2) := by
  refine ⟨by decide, _, _, rfl, by decide⟩

/-- Claim C10 on a matrix of two series with label maps `a = 1` and `b = 2`:
every point of both batches holds the one map `externalLabels` (address 2).
`runOne` writes the first batch with point tags `monitor, a` and the second
with point tags `monitor, a, b`: the label `a = 1` of the first series is in the
tags of the second series' point, and once the second batch is merged the tags
of the first batch's point have changed as well. -/
theorem runOne_matrix_shared_tags :
    runOne twoSeriesEnv ⟨"db", 0, 60, 1, 1, 0, "m", "ns", ""⟩ "up" 2 0
      = (2,
        [Event.query "up" { Start := 0, End := 60, Step := 1 },
         Event.write
          { Points := [{ Measurement := "up", Tags := some 2, Time := 0,
                         Fields := [("value", FieldValue.float64 7)], Precision := "ns" }],
            Database := "db", Tags := some 0, Precision := "ns" }
          [[("monitor", "m"), ("a", "1")]] none,
         Event.write
          { Points := [{ Measurement := "up", Tags := some 2, Time := 5000000,
                         Fields := [("value", FieldValue.float64 8)], Precision := "ns" }],
            Database := "db", Tags := some 1, Precision := "ns" }
          [[("monitor", "m"), ("a", "1"), ("b", "2")]] none],
        Outcome.returned none) ∧
    (∃ h b0 b1, valueToInfluxdb ⟨"db", 0, 60, 1, 1, 0, "m", "ns", ""⟩ "up"
        [[("a", "1")], [("b", "2")]]
        (Value.Matrix [some { Metric := some 0, Values := [⟨0, 7⟩] },
          some { Metric := some 1, Values := [⟨5, 8⟩] }])
          = .ok (h, [b0, b1]) ∧
      pointTags (mergeTags h b0) b0 = [[("monitor", "m"), ("a", "1")]] ∧
      pointTags (mergeTags (mergeTags h b0) b1) b1 = [[("monitor", "m"), ("a", "1"), ("b", "2")]] ∧
      pointTags (mergeTags (mergeTags h b0) b1) b0 = [[("monitor", "m"), ("a", "1"), ("b", "2")]] ∧
      Heap.read h 1 = [("b", "2")]) := by
  refine ⟨by decide, _, _, _, rfl, by decide, by decide, by decide, by decide⟩

end Prom2Influx
